import Mathlib

/-!
Shallow embedding of the swagger-fixing script
(src/Octopus.Api.Client/fix_swagger.py) of Xbim.WexSDK.

The script loads a JSON document, walks spec["paths"], and for every
operation whose responses mapping has both a "201" and a "200" key removes
the "200" entry when its content is empty (Python falsiness) or has an
empty "application/json" entry.  JSON values are modelled by the inductive
type Json below; Python dicts become insertion-ordered association lists,
Python falsiness becomes the function truthy, and Python runtime errors
(TypeError / KeyError / AttributeError) become an explicit error type PyErr
threaded through Except.
-/

inductive Json : Type where
  | null : Json
  | bool : Bool → Json
  | num : Int → Json
  | str : String → Json
  | arr : List Json → Json
  | obj : List (String × Json) → Json

/-- Python dict lookup on an insertion-ordered association list
(first occurrence; keys of a dict produced by json.load are unique). -/
def lookupKey : List (String × Json) → String → Option Json
  | [], _ => none
  | (k, v) :: rest, key => if k = key then some v else lookupKey rest key

/-- Python membership test on the keys of a dict. -/
def hasKey (kvs : List (String × Json)) (k : String) : Bool :=
  (lookupKey kvs k).isSome

/-- Python in-place assignment d[key] = val for a key already present:
replaces the value at the first occurrence, preserving key order. -/
def setKey : List (String × Json) → String → Json → List (String × Json)
  | [], _, _ => []
  | (k, v) :: rest, key, val =>
    if k = key then (k, val) :: rest else (k, v) :: setKey rest key val

/-- Python del d[key]: removes the (first) occurrence of the key,
preserving the order of the remaining entries. -/
def delKey : List (String × Json) → String → List (String × Json)
  | [], _ => []
  | (k, v) :: rest, key => if k = key then rest else (k, v) :: delKey rest key

/-- Python truthiness of a JSON value: null, false, 0, the empty string,
the empty array and the empty object are falsy, everything else truthy. -/
def truthy : Json → Bool
  | .null => false
  | .bool b => b
  | .num n => n ≠ 0
  | .str s => s ≠ ""
  | .arr xs => !xs.isEmpty
  | .obj kvs => !kvs.isEmpty

/-- Python runtime errors that the script can raise while traversing. -/
inductive PyErr : Type where
  | typeError : PyErr
  | keyError : PyErr
  | attrError : PyErr

/-- Whether the character list starting here begins with pat. -/
def listStartsWith : List Char → List Char → Bool
  | [], _ => true
  | _ :: _, [] => false
  | a :: as, b :: bs => a = b && listStartsWith as bs

/-- Whether pat occurs as a contiguous sub-list. -/
def listHasSub (pat : List Char) : List Char → Bool
  | [] => listStartsWith pat []
  | c :: rest => listStartsWith pat (c :: rest) || listHasSub pat rest

/-- Python substring containment: pat in s for strings. -/
def strIn (pat s : String) : Bool := listHasSub pat.data s.data

/-- Python key in v for a string key: dict key membership, substring test
on strings, element equality on lists, and a TypeError on null, booleans
and numbers (argument not iterable).  Models lines 14 and 17 of
fix_swagger.py. -/
def pyIn (k : String) (v : Json) : Except PyErr Bool :=
  match v with
  | .obj kvs => .ok (hasKey kvs k)
  | .arr xs => .ok (xs.any fun x => match x with | .str s => s = k | _ => false)
  | .str s => .ok (strIn k s)
  | _ => .error .typeError

/-- The removal test of lines 22-24 of fix_swagger.py:
not content or (isinstance(content, dict) and
application/json in content and not content[application/json]). -/
def shouldRemove (content : Json) : Bool :=
  !truthy content ||
    (match content with
     | .obj kvs =>
       match lookupKey kvs "application/json" with
       | some v => !truthy v
       | none => false
     | _ => false)

/-- The body of the inner loop of fix_swagger.py (lines 13-27) for one
(method, details) entry: returns the possibly-updated operation object and
whether the "200" response was removed, or the Python error raised.
details must be a dict with a "responses" key; then "201" / "200"
membership is tested on the responses value (raising a TypeError on
non-iterable values), responses["200"] is indexed (a TypeError on a string
or list), and the removal happens only when responses["200"] is a dict
whose content passes shouldRemove. -/
def fixOp (details : Json) : Except PyErr (Json × Bool) :=
  match details with
  | .obj d =>
    match lookupKey d "responses" with
    | none => .ok (details, false)
    | some responses =>
      match pyIn "201" responses with
      | .error e => .error e
      | .ok false => .ok (details, false)
      | .ok true =>
        match pyIn "200" responses with
        | .error e => .error e
        | .ok false => .ok (details, false)
        | .ok true =>
          match responses with
          | .obj rs =>
            match lookupKey rs "200" with
            | none => .error .keyError
            | some r200 =>
              match r200 with
              | .obj r =>
                if shouldRemove ((lookupKey r "content").getD (.obj [])) then
                  .ok (.obj (setKey d "responses" (.obj (delKey rs "200"))), true)
                else .ok (details, false)
              | _ => .ok (details, false)
          | _ => .error .typeError
  | _ => .ok (details, false)

/-- Python str.upper() on the method name, character by character
(ASCII case mapping, which covers every HTTP method string). -/
def upStr (s : String) : String := String.mk (s.data.map Char.toUpper)

/-- The line printed for each removal (line 27 of fix_swagger.py). -/
def removeMsg (method path : String) : String :=
  "Removed empty 200 from " ++ upStr method ++ " " ++ path

/-- The final summary line (line 31 of fix_swagger.py). -/
def fixedMsg (n : Nat) : String :=
  "Fixed " ++ toString n ++ " endpoints. Saved to swagger.json"

/-- The inner loop of fix_swagger.py over the entries of one path value:
processes the operations in order, accumulating the removal count and the
printed lines, stopping at the first Python error. -/
def fixMethods (path : String) :
    List (String × Json) → Except PyErr (List (String × Json) × Nat × List String)
  | [] => .ok ([], 0, [])
  | (method, details) :: rest =>
    match fixOp details with
    | .error e => .error e
    | .ok (details2, removed) =>
      match fixMethods path rest with
      | .error e => .error e
      | .ok (rest2, n, logs) =>
        .ok ((method, details2) :: rest2,
             (if removed then 1 else 0) + n,
             (if removed then [removeMsg method path] else []) ++ logs)

/-- The outer loop of fix_swagger.py (line 12): iterates over the path
entries; a path value that is not a dict has no .items() and raises an
AttributeError. -/
def fixPaths :
    List (String × Json) → Except PyErr (List (String × Json) × Nat × List String)
  | [] => .ok ([], 0, [])
  | (path, methods) :: rest =>
    match methods with
    | .obj ms =>
      match fixMethods path ms with
      | .error e => .error e
      | .ok (ms2, n, logs) =>
        match fixPaths rest with
        | .error e => .error e
        | .ok (rest2, n2, logs2) =>
          .ok ((path, .obj ms2) :: rest2, n + n2, logs ++ logs2)
    | _ => .error .attrError

/-- The whole in-memory pass of fix_swagger.py on the parsed document:
spec.get requires the document to be a dict (otherwise an AttributeError),
a missing "paths" entry defaults to an empty dict, a non-dict "paths"
value has no .items() and raises an AttributeError, and otherwise the
mutated document, the removal count and the printed removal lines are
returned. -/
def fixSpec (spec : Json) : Except PyErr (Json × Nat × List String) :=
  match spec with
  | .obj s =>
    match (lookupKey s "paths").getD (.obj []) with
    | .obj ps =>
      match fixPaths ps with
      | .error e => .error e
      | .ok (ps2, n, logs) =>
        if hasKey s "paths" then .ok (.obj (setKey s "paths" (.obj ps2)), n, logs)
        else .ok (spec, n, logs)
    | _ => .error .attrError
  | _ => .error .attrError

/-- Outcome of one run of the script.  parseError: the input file was
missing or not valid JSON (lines 7-8), nothing was written.  abortedWith:
a Python error was raised during the pass, nothing was written.  success:
carries the document written to swagger.json (lines 29-30) and the full
standard output, the removal lines followed by the summary line. -/
inductive RunResult : Type where
  | parseError : RunResult
  | abortedWith : PyErr → RunResult
  | success : Json → List String → RunResult

/-- One run of fix_swagger.py, with the parse step abstracted as an
Option: none models a missing or unparsable input file. -/
def runScript (input : Option Json) : RunResult :=
  match input with
  | none => .parseError
  | some spec =>
    match fixSpec spec with
    | .error e => .abortedWith e
    | .ok (spec2, n, logs) => .success spec2 (logs ++ [fixedMsg n])

/-- The removal condition in the words of the specification: the content
(the "content" entry of the "200" response, an empty mapping when absent)
is empty/falsy, or is a mapping that contains the key "application/json"
whose value is empty/falsy. -/
def specRemovalCond (content : Json) : Prop :=
  truthy content = false ∨
    ∃ kvs v, content = Json.obj kvs ∧
      lookupKey kvs "application/json" = some v ∧ truthy v = false

theorem shouldRemove_iff_spec (c : Json) :
    shouldRemove c = true ↔ specRemovalCond c := by
  cases c with
  | obj kvs =>
    rcases h : lookupKey kvs "application/json" with _ | v
    · simp [shouldRemove, specRemovalCond, h]
    · simp [shouldRemove, specRemovalCond, h]
  | null => simp [shouldRemove, specRemovalCond, truthy]
  | bool b => simp [shouldRemove, specRemovalCond]
  | num n => simp [shouldRemove, specRemovalCond]
  | str s => simp [shouldRemove, specRemovalCond]
  | arr xs => simp [shouldRemove, specRemovalCond]

/-- C1: for an operation object whose responses mapping has both "201"
and "200", the "200" value being a mapping, the "200" entry is deleted
and the removal flag set exactly when the content (empty mapping when the
key is absent) satisfies the removal condition of the specification, and
in every other case the operation is returned unchanged with the flag
unset. -/
theorem c1_removal_condition (d rs r : List (String × Json))
    (hresp : lookupKey d "responses" = some (Json.obj rs))
    (h201 : hasKey rs "201" = true)
    (h200 : lookupKey rs "200" = some (Json.obj r)) :
    (specRemovalCond ((lookupKey r "content").getD (Json.obj [])) →
      fixOp (Json.obj d) =
        Except.ok (Json.obj (setKey d "responses" (Json.obj (delKey rs "200"))), true)) ∧
    (¬ specRemovalCond ((lookupKey r "content").getD (Json.obj [])) →
      fixOp (Json.obj d) = Except.ok (Json.obj d, false)) := by
  have hk : hasKey rs "200" = true := by simp [hasKey, h200]
  constructor
  · intro hc
    have hs : shouldRemove ((lookupKey r "content").getD (Json.obj [])) = true :=
      (shouldRemove_iff_spec _).mpr hc
    simp [fixOp, hresp, pyIn, h201, hk, h200, hs]
  · intro hc
    have hs : shouldRemove ((lookupKey r "content").getD (Json.obj [])) = false := by
      cases hb : shouldRemove ((lookupKey r "content").getD (Json.obj [])) with
      | false => rfl
      | true => exact absurd ((shouldRemove_iff_spec _).mp hb) hc
    simp [fixOp, hresp, pyIn, h201, hk, h200, hs]

theorem c1_removal_condition_witness :
    fixOp (Json.obj [("responses", Json.obj
        [("200", Json.obj [("content", Json.obj [])]), ("201", Json.null)])]) =
      Except.ok (Json.obj [("responses", Json.obj [("201", Json.null)])], true) := by
  have h := (c1_removal_condition
      [("responses", Json.obj
        [("200", Json.obj [("content", Json.obj [])]), ("201", Json.null)])]
      [("200", Json.obj [("content", Json.obj [])]), ("201", Json.null)]
      [("content", Json.obj [])] rfl rfl rfl).1 (Or.inl rfl)
  exact h

/-- C9: when the content entry is present with any falsy value (null,
false, zero, the empty string, the empty array, the empty mapping), the
gated "200" entry is removed just as when content is absent: the emptiness
test is Python falsiness, not an empty-mapping test. -/
theorem c9_falsy_content_removed (d rs r : List (String × Json)) (v : Json)
    (hresp : lookupKey d "responses" = some (Json.obj rs))
    (h201 : hasKey rs "201" = true)
    (h200 : lookupKey rs "200" = some (Json.obj r))
    (hc : lookupKey r "content" = some v)
    (hv : truthy v = false) :
    fixOp (Json.obj d) =
      Except.ok (Json.obj (setKey d "responses" (Json.obj (delKey rs "200"))), true) := by
  have hk : hasKey rs "200" = true := by simp [hasKey, h200]
  have hs : shouldRemove ((lookupKey r "content").getD (Json.obj [])) = true := by
    rw [hc]
    simp [shouldRemove, hv]
  simp [fixOp, hresp, pyIn, h201, hk, h200, hs]

theorem c9_falsy_content_removed_witness :
    fixOp (Json.obj [("responses", Json.obj
        [("200", Json.obj [("content", Json.num 0)]), ("201", Json.null)])]) =
      Except.ok (Json.obj [("responses", Json.obj [("201", Json.null)])], true) := by
  have h := c9_falsy_content_removed
      [("responses", Json.obj
        [("200", Json.obj [("content", Json.num 0)]), ("201", Json.null)])]
      [("200", Json.obj [("content", Json.num 0)]), ("201", Json.null)]
      [("content", Json.num 0)] (Json.num 0) rfl rfl rfl rfl rfl
  exact h

/-- An operation object is shaped well enough for fixOp not to raise:
its "responses" entry, when present, is a mapping.  The "200" value and
the "content" value may still have any shape. -/
def goodOp (details : Json) : Bool :=
  match details with
  | .obj d =>
    match lookupKey d "responses" with
    | some (.obj _) => true
    | some _ => false
    | none => true
  | _ => true

/-- A document shaped well enough for the pass not to raise: a mapping
whose "paths" entry, when present, is a mapping of mappings, with every
operation satisfying goodOp. -/
def docShaped (spec : Json) : Bool :=
  match spec with
  | .obj s =>
    match lookupKey s "paths" with
    | none => true
    | some (.obj ps) =>
      ps.all fun pm =>
        match pm.2 with
        | .obj ms => ms.all fun md => goodOp md.2
        | _ => false
    | some _ => false
  | _ => false

theorem lookup_of_hasKey {rs : List (String × Json)} {k : String}
    (h : hasKey rs k = true) : ∃ v, lookupKey rs k = some v := by
  unfold hasKey at h
  exact Option.isSome_iff_exists.mp h

theorem fixOp_total (details : Json) (h : goodOp details = true) :
    ∃ out, fixOp details = Except.ok out := by
  cases details with
  | obj d =>
    rcases hr : lookupKey d "responses" with _ | v
    · exact ⟨_, by simp [fixOp, hr]; rfl⟩
    · cases v with
      | obj rs =>
        cases h1 : hasKey rs "201" with
        | false => exact ⟨_, by simp [fixOp, hr, pyIn, h1]; rfl⟩
        | true =>
          cases h2 : hasKey rs "200" with
          | false => exact ⟨_, by simp [fixOp, hr, pyIn, h1, h2]; rfl⟩
          | true =>
            obtain ⟨r200, hl⟩ := lookup_of_hasKey h2
            cases r200 with
            | obj r =>
              cases hs : shouldRemove ((lookupKey r "content").getD (Json.obj [])) with
              | true => exact ⟨_, by simp [fixOp, hr, pyIn, h1, h2, hl, hs]; rfl⟩
              | false => exact ⟨_, by simp [fixOp, hr, pyIn, h1, h2, hl, hs]; rfl⟩
            | null => exact ⟨_, by simp [fixOp, hr, pyIn, h1, h2, hl]; rfl⟩
            | bool b => exact ⟨_, by simp [fixOp, hr, pyIn, h1, h2, hl]; rfl⟩
            | num n => exact ⟨_, by simp [fixOp, hr, pyIn, h1, h2, hl]; rfl⟩
            | str s => exact ⟨_, by simp [fixOp, hr, pyIn, h1, h2, hl]; rfl⟩
            | arr xs => exact ⟨_, by simp [fixOp, hr, pyIn, h1, h2, hl]; rfl⟩
      | null => simp [goodOp, hr] at h
      | bool b => simp [goodOp, hr] at h
      | num n => simp [goodOp, hr] at h
      | str s => simp [goodOp, hr] at h
      | arr xs => simp [goodOp, hr] at h
  | null => exact ⟨_, rfl⟩
  | bool b => exact ⟨_, rfl⟩
  | num n => exact ⟨_, rfl⟩
  | str s => exact ⟨_, rfl⟩
  | arr xs => exact ⟨_, rfl⟩

theorem fixMethods_total (path : String) (ms : List (String × Json))
    (h : (ms.all fun md => goodOp md.2) = true) :
    ∃ out, fixMethods path ms = Except.ok out := by
  induction ms with
  | nil => exact ⟨_, rfl⟩
  | cons hd tl ih =>
    obtain ⟨m, dt⟩ := hd
    simp only [List.all_cons, Bool.and_eq_true] at h
    obtain ⟨⟨dt2, b⟩, hop⟩ := fixOp_total dt h.1
    obtain ⟨⟨tl2, n, logs⟩, htl⟩ := ih h.2
    exact ⟨_, by simp [fixMethods, hop, htl]; rfl⟩

theorem fixPaths_total (ps : List (String × Json))
    (h : (ps.all fun pm =>
        match pm.2 with
        | .obj ms => ms.all fun md => goodOp md.2
        | _ => false) = true) :
    ∃ out, fixPaths ps = Except.ok out := by
  induction ps with
  | nil => exact ⟨_, rfl⟩
  | cons hd tl ih =>
    obtain ⟨p, m⟩ := hd
    simp only [List.all_cons, Bool.and_eq_true] at h
    obtain ⟨h1, h2⟩ := h
    cases m with
    | obj ms =>
      obtain ⟨⟨ms2, n, logs⟩, hms⟩ := fixMethods_total p ms h1
      obtain ⟨⟨tl2, n2, logs2⟩, htl⟩ := ih h2
      exact ⟨_, by simp [fixPaths, hms, htl]; rfl⟩
    | null => simp at h1
    | bool b => simp at h1
    | num n => simp at h1
    | str s => simp at h1
    | arr xs => simp at h1

/-- C4 (amended): the counterexample c4_counterexample shows the claim
false as stated, because the "responses" value itself is not guarded.
Amended claim: the pass completes without raising for every document that
is a mapping of mappings of operations down to the responses level, no
matter the shape of the "200" value or of the "content" value inside an
operation: those anomalies are skipped by the type guards. -/
theorem c4_type_guards (spec : Json) (h : docShaped spec = true) :
    ∃ out, fixSpec spec = Except.ok out := by
  cases spec with
  | obj s =>
    rcases hp : lookupKey s "paths" with _ | v
    · exact ⟨_, by simp [fixSpec, hp, hasKey, fixPaths]; rfl⟩
    · cases v with
      | obj ps =>
        have hps : (ps.all fun pm =>
            match pm.2 with
            | .obj ms => ms.all fun md => goodOp md.2
            | _ => false) = true := by
          simpa [docShaped, hp] using h
        obtain ⟨⟨ps2, n, logs⟩, hfp⟩ := fixPaths_total ps hps
        have hk : hasKey s "paths" = true := by simp [hasKey, hp]
        exact ⟨_, by simp [fixSpec, hp, hfp, hk]; rfl⟩
      | null => simp [docShaped, hp] at h
      | bool b => simp [docShaped, hp] at h
      | num n => simp [docShaped, hp] at h
      | str s2 => simp [docShaped, hp] at h
      | arr xs => simp [docShaped, hp] at h
  | null => simp [docShaped] at h
  | bool b => simp [docShaped] at h
  | num n => simp [docShaped] at h
  | str s => simp [docShaped] at h
  | arr xs => simp [docShaped] at h

/-- C4, the claim as stated, is false: an operation whose "responses"
value is null (a value inside an individual operation object that is not
a mapping) makes the membership test raise a TypeError, so the pass does
not complete; nothing guards the "responses" value. -/
theorem c4_counterexample :
    fixSpec (Json.obj [("paths", Json.obj [("/x", Json.obj
      [("get", Json.obj [("responses", Json.null)])])])]) =
      Except.error PyErr.typeError := rfl

theorem c4_type_guards_witness :
    ∃ out, fixSpec (Json.obj [("paths", Json.obj [("/x", Json.obj
      [("get", Json.obj [("responses", Json.obj
        [("200", Json.bool true), ("201", Json.null)])]),
       ("put", Json.obj [("responses", Json.obj
        [("200", Json.obj [("content", Json.str "text")]),
         ("201", Json.null)])])])])]) = Except.ok out :=
  c4_type_guards _ rfl

theorem lookup_setKey_ne (kvs : List (String × Json)) (key k : String) (v : Json)
    (h : k ≠ key) : lookupKey (setKey kvs key v) k = lookupKey kvs k := by
  induction kvs with
  | nil => rfl
  | cons hd tl ih =>
    obtain ⟨k0, v0⟩ := hd
    by_cases hk : k0 = key
    · subst hk
      simp [setKey, lookupKey, Ne.symm h]
    · simp [setKey, lookupKey, hk]
      by_cases hk2 : k0 = k
      · simp [hk2]
      · simp [hk2, ih]

theorem lookup_delKey_ne (kvs : List (String × Json)) (key k : String)
    (h : k ≠ key) : lookupKey (delKey kvs key) k = lookupKey kvs k := by
  induction kvs with
  | nil => rfl
  | cons hd tl ih =>
    obtain ⟨k0, v0⟩ := hd
    by_cases hk : k0 = key
    · subst hk
      simp [delKey, lookupKey, Ne.symm h]
    · simp [delKey, lookupKey, hk]
      by_cases hk2 : k0 = k
      · simp [hk2]
      · simp [hk2, ih]

/-- The relationship between an operation object before and after the
pass: either untouched, or the document had a "201" and a mapping "200"
whose content met the removal condition of the specification, and the one
change is the deletion of that "200" entry inside the "responses" value. -/
def opFrame (dt dt' : Json) : Prop :=
  dt' = dt ∨
    ∃ d rs r, dt = Json.obj d ∧ lookupKey d "responses" = some (Json.obj rs) ∧
      hasKey rs "201" = true ∧ lookupKey rs "200" = some (Json.obj r) ∧
      specRemovalCond ((lookupKey r "content").getD (Json.obj [])) ∧
      dt' = Json.obj (setKey d "responses" (Json.obj (delKey rs "200")))

/-- Pointwise frame over one path value: same method keys in the same
order, each operation related by opFrame. -/
def methodsFrame (ms ms' : List (String × Json)) : Prop :=
  List.Forall₂ (fun a b => a.1 = b.1 ∧ opFrame a.2 b.2) ms ms'

/-- Pointwise frame over the paths mapping: same path keys in the same
order, each path value a mapping related by methodsFrame. -/
def pathsFrame (ps ps' : List (String × Json)) : Prop :=
  List.Forall₂ (fun a b => a.1 = b.1 ∧
    ∃ ms ms', a.2 = Json.obj ms ∧ b.2 = Json.obj ms' ∧ methodsFrame ms ms') ps ps'

/-- Whole-document frame: unchanged, or only the "paths" entry replaced
by a pathsFrame-related mapping. -/
def specFrame (spec spec' : Json) : Prop :=
  spec' = spec ∨
    ∃ s ps ps', spec = Json.obj s ∧ lookupKey s "paths" = some (Json.obj ps) ∧
      pathsFrame ps ps' ∧ spec' = Json.obj (setKey s "paths" (Json.obj ps'))

theorem fixOp_frame (details dt' : Json) (b : Bool)
    (h : fixOp details = Except.ok (dt', b)) : opFrame details dt' := by
  cases details with
  | obj d =>
    rcases hr : lookupKey d "responses" with _ | responses
    · simp [fixOp, hr] at h
      exact Or.inl h.1.symm
    · cases responses with
      | obj rs =>
        cases h1 : hasKey rs "201" with
        | false =>
          simp [fixOp, hr, pyIn, h1] at h
          exact Or.inl h.1.symm
        | true =>
          cases h2 : hasKey rs "200" with
          | false =>
            simp [fixOp, hr, pyIn, h1, h2] at h
            exact Or.inl h.1.symm
          | true =>
            obtain ⟨r200, hl⟩ := lookup_of_hasKey h2
            cases r200 with
            | obj r =>
              cases hs : shouldRemove ((lookupKey r "content").getD (Json.obj [])) with
              | true =>
                simp [fixOp, hr, pyIn, h1, h2, hl, hs] at h
                exact Or.inr ⟨d, rs, r, rfl, hr, h1, hl,
                  (shouldRemove_iff_spec _).mp hs, h.1.symm⟩
              | false =>
                simp [fixOp, hr, pyIn, h1, h2, hl, hs] at h
                exact Or.inl h.1.symm
            | null =>
              simp [fixOp, hr, pyIn, h1, h2, hl] at h
              exact Or.inl h.1.symm
            | bool b2 =>
              simp [fixOp, hr, pyIn, h1, h2, hl] at h
              exact Or.inl h.1.symm
            | num n =>
              simp [fixOp, hr, pyIn, h1, h2, hl] at h
              exact Or.inl h.1.symm
            | str s =>
              simp [fixOp, hr, pyIn, h1, h2, hl] at h
              exact Or.inl h.1.symm
            | arr xs =>
              simp [fixOp, hr, pyIn, h1, h2, hl] at h
              exact Or.inl h.1.symm
      | null => simp [fixOp, hr, pyIn] at h
      | bool b2 => simp [fixOp, hr, pyIn] at h
      | num n => simp [fixOp, hr, pyIn] at h
      | str s =>
        cases g1 : strIn "201" s with
        | false =>
          simp [fixOp, hr, pyIn, g1] at h
          exact Or.inl h.1.symm
        | true =>
          cases g2 : strIn "200" s with
          | false =>
            simp [fixOp, hr, pyIn, g1, g2] at h
            exact Or.inl h.1.symm
          | true => simp [fixOp, hr, pyIn, g1, g2] at h
      | arr xs =>
        cases g1 : xs.any fun x => match x with | .str s => s = "201" | _ => false with
        | false =>
          simp [fixOp, hr, pyIn, g1] at h
          exact Or.inl h.1.symm
        | true =>
          cases g2 : xs.any fun x => match x with | .str s => s = "200" | _ => false with
          | false =>
            simp [fixOp, hr, pyIn, g1, g2] at h
            exact Or.inl h.1.symm
          | true => simp [fixOp, hr, pyIn, g1, g2] at h
  | null => exact Or.inl (congrArg Prod.fst (Except.ok.inj h)).symm
  | bool b2 => exact Or.inl (congrArg Prod.fst (Except.ok.inj h)).symm
  | num n => exact Or.inl (congrArg Prod.fst (Except.ok.inj h)).symm
  | str s => exact Or.inl (congrArg Prod.fst (Except.ok.inj h)).symm
  | arr xs => exact Or.inl (congrArg Prod.fst (Except.ok.inj h)).symm

theorem fixMethods_frame (path : String) (ms ms2 : List (String × Json))
    (n : Nat) (logs : List String)
    (h : fixMethods path ms = Except.ok (ms2, n, logs)) : methodsFrame ms ms2 := by
  induction ms generalizing ms2 n logs with
  | nil =>
    simp [fixMethods] at h
    obtain ⟨h1, h2, h3⟩ := h
    subst h1
    exact List.Forall₂.nil
  | cons hd tl ih =>
    obtain ⟨m, dt⟩ := hd
    rcases e : fixOp dt with e2 | ⟨dt2, b⟩
    · simp [fixMethods, e] at h
    · rcases e2 : fixMethods path tl with e3 | ⟨tl2, n2, logs2⟩
      · simp [fixMethods, e, e2] at h
      · simp [fixMethods, e, e2] at h
        obtain ⟨h1, h2, h3⟩ := h
        subst h1
        exact List.Forall₂.cons ⟨rfl, fixOp_frame dt dt2 b e⟩ (ih tl2 n2 logs2 e2)

theorem fixPaths_frame (ps ps2 : List (String × Json))
    (n : Nat) (logs : List String)
    (h : fixPaths ps = Except.ok (ps2, n, logs)) : pathsFrame ps ps2 := by
  induction ps generalizing ps2 n logs with
  | nil =>
    simp [fixPaths] at h
    obtain ⟨h1, h2, h3⟩ := h
    subst h1
    exact List.Forall₂.nil
  | cons hd tl ih =>
    obtain ⟨p, m⟩ := hd
    cases m with
    | obj ms =>
      rcases e : fixMethods p ms with e2 | ⟨ms2, n2, logs2⟩
      · simp [fixPaths, e] at h
      · rcases e2 : fixPaths tl with e3 | ⟨tl2, n3, logs3⟩
        · simp [fixPaths, e, e2] at h
        · simp [fixPaths, e, e2] at h
          obtain ⟨h1, h2, h3⟩ := h
          subst h1
          exact List.Forall₂.cons
            ⟨rfl, ms, ms2, rfl, rfl, fixMethods_frame p ms ms2 n2 logs2 e⟩
            (ih tl2 n3 logs3 e2)
    | null => simp [fixPaths] at h
    | bool b => simp [fixPaths] at h
    | num n2 => simp [fixPaths] at h
    | str s => simp [fixPaths] at h
    | arr xs => simp [fixPaths] at h

/-- C2: a successful pass changes the document only by deleting "200"
entries meeting the removal condition in operations that also have a
"201" response: the output is specFrame-related to the input (all other
response keys, operation keys and path entries are kept, in order), and
every top-level key other than "paths" has an identical value. -/
theorem c2_only_mutation_is_removal (spec spec' : Json) (n : Nat)
    (logs : List String) (h : fixSpec spec = Except.ok (spec', n, logs)) :
    specFrame spec spec' ∧
      ∀ s, spec = Json.obj s →
        ∃ s', spec' = Json.obj s' ∧
          ∀ k, k ≠ "paths" → lookupKey s' k = lookupKey s k := by
  cases spec with
  | obj s =>
    rcases hp : lookupKey s "paths" with _ | v
    · have hk : hasKey s "paths" = false := by simp [hasKey, hp]
      simp [fixSpec, hp, fixPaths, hk] at h
      obtain ⟨h1, h2, h3⟩ := h
      subst h1
      constructor
      · exact Or.inl rfl
      · intro s0 hs0
        injection hs0 with h4
        subst h4
        exact ⟨_, rfl, fun k _ => rfl⟩
    · cases v with
      | obj ps =>
        rcases hfp : fixPaths ps with e | ⟨ps2, n2, logs2⟩
        · simp [fixSpec, hp, hfp] at h
        · have hk : hasKey s "paths" = true := by simp [hasKey, hp]
          simp [fixSpec, hp, hfp, hk] at h
          obtain ⟨h1, h2, h3⟩ := h
          subst h1
          constructor
          · exact Or.inr ⟨s, ps, ps2, rfl, hp,
              fixPaths_frame ps ps2 n2 logs2 hfp, rfl⟩
          · intro s0 hs0
            injection hs0 with h4
            subst h4
            exact ⟨_, rfl, fun k hk2 => lookup_setKey_ne _ "paths" k _ hk2⟩
      | null => simp [fixSpec, hp] at h
      | bool b => simp [fixSpec, hp] at h
      | num n2 => simp [fixSpec, hp] at h
      | str s2 => simp [fixSpec, hp] at h
      | arr xs => simp [fixSpec, hp] at h
  | null => simp [fixSpec] at h
  | bool b => simp [fixSpec] at h
  | num n2 => simp [fixSpec] at h
  | str s => simp [fixSpec] at h
  | arr xs => simp [fixSpec] at h

/-- The end-to-end example document of the specification. -/
def exDoc : Json :=
  Json.obj [("paths", Json.obj [("/x", Json.obj [("post", Json.obj
    [("responses", Json.obj [("200", Json.obj [("content", Json.obj [])]),
      ("201", Json.obj [("content", Json.obj [("application/json",
        Json.obj [("schema", Json.obj [])])])])])])])])]

/-- The end-to-end example document after the pass. -/
def exDocFixed : Json :=
  Json.obj [("paths", Json.obj [("/x", Json.obj [("post", Json.obj
    [("responses", Json.obj [("201", Json.obj [("content", Json.obj
      [("application/json", Json.obj [("schema", Json.obj [])])])])])])])])]

theorem c2_only_mutation_is_removal_witness : specFrame exDoc exDocFixed :=
  (c2_only_mutation_is_removal exDoc exDocFixed 1
    ["Removed empty 200 from POST /x"] rfl).1

theorem lookup_setKey_eq (kvs : List (String × Json)) (k : String) (v : Json)
    (h : hasKey kvs k = true) : lookupKey (setKey kvs k v) k = some v := by
  induction kvs with
  | nil => simp [hasKey, lookupKey] at h
  | cons hd tl ih =>
    obtain ⟨k0, v0⟩ := hd
    by_cases hk : k0 = k
    · subst hk
      simp [setKey, lookupKey]
    · simp [hasKey, lookupKey, hk] at h
      simp [setKey, lookupKey, hk, ih h]

theorem setKey_self (kvs : List (String × Json)) (k : String) (v : Json)
    (h : lookupKey kvs k = some v) : setKey kvs k v = kvs := by
  induction kvs with
  | nil => rfl
  | cons hd tl ih =>
    obtain ⟨k0, v0⟩ := hd
    by_cases hk : k0 = k
    · subst hk
      simp [lookupKey] at h
      simp [setKey, h]
    · simp [lookupKey, hk] at h
      simp [setKey, hk, ih h]

/-- True when the operation has no responses mapping holding both a
"201" key and a "200" key. -/
def opNoBoth (details : Json) : Bool :=
  match details with
  | .obj d =>
    match lookupKey d "responses" with
    | some (.obj rs) => !(hasKey rs "201" && hasKey rs "200")
    | _ => true
  | _ => true

/-- True when no operation of the document has a responses mapping with
both a "201" key and a "200" key. -/
def noBoth (spec : Json) : Bool :=
  match spec with
  | .obj s =>
    match lookupKey s "paths" with
    | some (.obj ps) =>
      ps.all fun pm =>
        match pm.2 with
        | .obj ms => ms.all fun md => opNoBoth md.2
        | _ => true
    | _ => true
  | _ => true

theorem fixOp_noBoth (details dt' : Json) (b : Bool)
    (hnb : opNoBoth details = true)
    (h : fixOp details = Except.ok (dt', b)) : dt' = details ∧ b = false := by
  cases details with
  | obj d =>
    rcases hr : lookupKey d "responses" with _ | responses
    · simp [fixOp, hr] at h
      obtain ⟨h1, h2⟩ := h
      subst h1
      subst h2
      exact ⟨rfl, rfl⟩
    · cases responses with
      | obj rs =>
        cases h1 : hasKey rs "201" with
        | false =>
          simp [fixOp, hr, pyIn, h1] at h
          obtain ⟨h1, h2⟩ := h
          subst h1
          subst h2
          exact ⟨rfl, rfl⟩
        | true =>
          have h2 : hasKey rs "200" = false := by
            simp [opNoBoth, hr, h1] at hnb
            exact hnb
          simp [fixOp, hr, pyIn, h1, h2] at h
          obtain ⟨h1, h2⟩ := h
          subst h1
          subst h2
          exact ⟨rfl, rfl⟩
      | null => simp [fixOp, hr, pyIn] at h
      | bool b2 => simp [fixOp, hr, pyIn] at h
      | num n => simp [fixOp, hr, pyIn] at h
      | str s =>
        cases g1 : strIn "201" s with
        | false =>
          simp [fixOp, hr, pyIn, g1] at h
          obtain ⟨h1, h2⟩ := h
          subst h1
          subst h2
          exact ⟨rfl, rfl⟩
        | true =>
          cases g2 : strIn "200" s with
          | false =>
            simp [fixOp, hr, pyIn, g1, g2] at h
            obtain ⟨h1, h2⟩ := h
            subst h1
            subst h2
            exact ⟨rfl, rfl⟩
          | true => simp [fixOp, hr, pyIn, g1, g2] at h
      | arr xs =>
        cases g1 : xs.any fun x => match x with | .str s => s = "201" | _ => false with
        | false =>
          simp [fixOp, hr, pyIn, g1] at h
          obtain ⟨h1, h2⟩ := h
          subst h1
          subst h2
          exact ⟨rfl, rfl⟩
        | true =>
          cases g2 : xs.any fun x => match x with | .str s => s = "200" | _ => false with
          | false =>
            simp [fixOp, hr, pyIn, g1, g2] at h
            obtain ⟨h1, h2⟩ := h
            subst h1
            subst h2
            exact ⟨rfl, rfl⟩
          | true => simp [fixOp, hr, pyIn, g1, g2] at h
  | null =>
    simp [fixOp] at h
    obtain ⟨h1, h2⟩ := h
    subst h1
    subst h2
    exact ⟨rfl, rfl⟩
  | bool b2 =>
    simp [fixOp] at h
    obtain ⟨h1, h2⟩ := h
    subst h1
    subst h2
    exact ⟨rfl, rfl⟩
  | num n =>
    simp [fixOp] at h
    obtain ⟨h1, h2⟩ := h
    subst h1
    subst h2
    exact ⟨rfl, rfl⟩
  | str s =>
    simp [fixOp] at h
    obtain ⟨h1, h2⟩ := h
    subst h1
    subst h2
    exact ⟨rfl, rfl⟩
  | arr xs =>
    simp [fixOp] at h
    obtain ⟨h1, h2⟩ := h
    subst h1
    subst h2
    exact ⟨rfl, rfl⟩

theorem fixMethods_noBoth (path : String) (ms ms2 : List (String × Json))
    (n : Nat) (logs : List String)
    (hnb : (ms.all fun md => opNoBoth md.2) = true)
    (h : fixMethods path ms = Except.ok (ms2, n, logs)) :
    ms2 = ms ∧ n = 0 ∧ logs = [] := by
  induction ms generalizing ms2 n logs with
  | nil =>
    simp [fixMethods] at h
    obtain ⟨h1, h2, h3⟩ := h
    subst h1
    subst h2
    subst h3
    exact ⟨rfl, rfl, rfl⟩
  | cons hd tl ih =>
    obtain ⟨m, dt⟩ := hd
    simp only [List.all_cons, Bool.and_eq_true] at hnb
    rcases e : fixOp dt with e2 | ⟨dt2, b⟩
    · simp [fixMethods, e] at h
    · rcases e2 : fixMethods path tl with e3 | ⟨tl2, n2, logs2⟩
      · simp [fixMethods, e, e2] at h
      · obtain ⟨hdt, hb⟩ := fixOp_noBoth dt dt2 b hnb.1 e
        subst hdt
        subst hb
        obtain ⟨htl, hn, hlogs⟩ := ih tl2 n2 logs2 hnb.2 e2
        subst htl
        subst hn
        subst hlogs
        simp [fixMethods, e, e2] at h
        obtain ⟨h1, h2, h3⟩ := h
        subst h1
        subst h2
        subst h3
        exact ⟨rfl, rfl, rfl⟩

theorem fixPaths_noBoth (ps ps2 : List (String × Json))
    (n : Nat) (logs : List String)
    (hnb : (ps.all fun pm =>
        match pm.2 with
        | .obj ms => ms.all fun md => opNoBoth md.2
        | _ => true) = true)
    (h : fixPaths ps = Except.ok (ps2, n, logs)) :
    ps2 = ps ∧ n = 0 ∧ logs = [] := by
  induction ps generalizing ps2 n logs with
  | nil =>
    simp [fixPaths] at h
    obtain ⟨h1, h2, h3⟩ := h
    subst h1
    subst h2
    subst h3
    exact ⟨rfl, rfl, rfl⟩
  | cons hd tl ih =>
    obtain ⟨p, m⟩ := hd
    simp only [List.all_cons, Bool.and_eq_true] at hnb
    cases m with
    | obj ms =>
      rcases e : fixMethods p ms with e2 | ⟨ms2, n2, logs2⟩
      · simp [fixPaths, e] at h
      · rcases e2 : fixPaths tl with e3 | ⟨tl2, n3, logs3⟩
        · simp [fixPaths, e, e2] at h
        · obtain ⟨hms, hn, hlogs⟩ := fixMethods_noBoth p ms ms2 n2 logs2 hnb.1 e
          subst hms
          subst hn
          subst hlogs
          obtain ⟨htl, hn3, hlogs3⟩ := ih tl2 n3 logs3 hnb.2 e2
          subst htl
          subst hn3
          subst hlogs3
          simp [fixPaths, e, e2] at h
          obtain ⟨h1, h2, h3⟩ := h
          subst h1
          subst h2
          subst h3
          exact ⟨rfl, rfl, rfl⟩
    | null => simp [fixPaths] at h
    | bool b => simp [fixPaths] at h
    | num n2 => simp [fixPaths] at h
    | str s => simp [fixPaths] at h
    | arr xs => simp [fixPaths] at h

/-- C5: a document that is a mapping with no "paths" entry passes through
unchanged with a zero count, and whenever no operation has a responses
mapping with both "201" and "200", a completed pass returns its input
unchanged, with a zero count and no removal lines. -/
theorem c5_no_qualifying_operation :
    (∀ s, lookupKey s "paths" = none →
      fixSpec (Json.obj s) = Except.ok (Json.obj s, 0, [])) ∧
    (∀ spec, docShaped spec = true → noBoth spec = true →
      fixSpec spec = Except.ok (spec, 0, [])) ∧
    (∀ spec spec' n logs, noBoth spec = true →
      fixSpec spec = Except.ok (spec', n, logs) →
      spec' = spec ∧ n = 0 ∧ logs = []) := by
  refine ⟨?_, ?_, ?_⟩
  · intro s hp
    have hk : hasKey s "paths" = false := by simp [hasKey, hp]
    simp [fixSpec, hp, fixPaths, hk]
  · intro spec hds hnb
    cases spec with
    | obj s =>
      rcases hp : lookupKey s "paths" with _ | v
      · have hk : hasKey s "paths" = false := by simp [hasKey, hp]
        simp [fixSpec, hp, fixPaths, hk]
      · cases v with
        | obj ps =>
          have hgood : (ps.all fun pm =>
              match pm.2 with
              | .obj ms => ms.all fun md => goodOp md.2
              | _ => false) = true := by
            simpa [docShaped, hp] using hds
          obtain ⟨⟨ps2, n2, logs2⟩, hfp⟩ := fixPaths_total ps hgood
          have hps : (ps.all fun pm =>
              match pm.2 with
              | .obj ms => ms.all fun md => opNoBoth md.2
              | _ => true) = true := by
            simpa [noBoth, hp] using hnb
          obtain ⟨hps2, hn2, hlogs2⟩ := fixPaths_noBoth ps ps2 n2 logs2 hps hfp
          subst hps2
          subst hn2
          subst hlogs2
          have hk : hasKey s "paths" = true := by simp [hasKey, hp]
          simp [fixSpec, hp, hfp, hk, setKey_self s "paths" (Json.obj ps2) hp]
        | null => simp [docShaped, hp] at hds
        | bool b => simp [docShaped, hp] at hds
        | num n2 => simp [docShaped, hp] at hds
        | str s2 => simp [docShaped, hp] at hds
        | arr xs => simp [docShaped, hp] at hds
    | null => simp [docShaped] at hds
    | bool b => simp [docShaped] at hds
    | num n2 => simp [docShaped] at hds
    | str s => simp [docShaped] at hds
    | arr xs => simp [docShaped] at hds
  · intro spec spec' n logs hnb h
    cases spec with
    | obj s =>
      rcases hp : lookupKey s "paths" with _ | v
      · have hk : hasKey s "paths" = false := by simp [hasKey, hp]
        simp [fixSpec, hp, fixPaths, hk] at h
        obtain ⟨h1, h2, h3⟩ := h
        subst h1
        subst h2
        subst h3
        exact ⟨rfl, rfl, rfl⟩
      · cases v with
        | obj ps =>
          rcases hfp : fixPaths ps with e | ⟨ps2, n2, logs2⟩
          · simp [fixSpec, hp, hfp] at h
          · have hps : (ps.all fun pm =>
                match pm.2 with
                | .obj ms => ms.all fun md => opNoBoth md.2
                | _ => true) = true := by
              simpa [noBoth, hp] using hnb
            obtain ⟨hps2, hn2, hlogs2⟩ := fixPaths_noBoth ps ps2 n2 logs2 hps hfp
            subst hps2
            subst hn2
            subst hlogs2
            have hk : hasKey s "paths" = true := by simp [hasKey, hp]
            simp [fixSpec, hp, hfp, hk, setKey_self s "paths" (Json.obj ps2) hp] at h
            obtain ⟨h1, h2, h3⟩ := h
            subst h1
            subst h2
            subst h3
            exact ⟨rfl, rfl, rfl⟩
        | null => simp [fixSpec, hp] at h
        | bool b => simp [fixSpec, hp] at h
        | num n2 => simp [fixSpec, hp] at h
        | str s2 => simp [fixSpec, hp] at h
        | arr xs => simp [fixSpec, hp] at h
    | null => simp [fixSpec] at h
    | bool b => simp [fixSpec] at h
    | num n2 => simp [fixSpec] at h
    | str s => simp [fixSpec] at h
    | arr xs => simp [fixSpec] at h

theorem c5_no_qualifying_operation_witness :
    fixSpec (Json.obj [("openapi", Json.str "3.0.1")]) =
      Except.ok (Json.obj [("openapi", Json.str "3.0.1")], 0, []) :=
  c5_no_qualifying_operation.1 [("openapi", Json.str "3.0.1")] rfl

/-- Unique keys, as holds for every dict produced by json.load. -/
def keysNodup : List (String × Json) → Bool
  | [] => true
  | (k, _) :: rest => !(hasKey rest k) && keysNodup rest

theorem hasKey_delKey_self (kvs : List (String × Json)) (k : String)
    (h : keysNodup kvs = true) : hasKey (delKey kvs k) k = false := by
  induction kvs with
  | nil => rfl
  | cons hd tl ih =>
    obtain ⟨k0, v0⟩ := hd
    simp only [keysNodup, Bool.and_eq_true] at h
    by_cases hk : k0 = k
    · subst hk
      simp only [delKey, if_pos rfl]
      simpa using h.1
    · simp only [delKey, if_neg hk]
      simpa [hasKey, lookupKey, hk] using ih h.2

/-- The responses mapping of the operation, when there is one, has unique
keys (true of every document parsed from JSON text). -/
def respNodup (details : Json) : Bool :=
  match details with
  | .obj d =>
    match lookupKey d "responses" with
    | some (.obj rs) => keysNodup rs
    | _ => true
  | _ => true

/-- Every responses mapping of the document has unique keys (true of
every document parsed from JSON text). -/
def specRespNodup (spec : Json) : Bool :=
  match spec with
  | .obj s =>
    match lookupKey s "paths" with
    | some (.obj ps) =>
      ps.all fun pm =>
        match pm.2 with
        | .obj ms => ms.all fun md => respNodup md.2
        | _ => true
    | _ => true
  | _ => true

theorem fixOp_idem (details dt' : Json) (b : Bool)
    (hnd : respNodup details = true)
    (h : fixOp details = Except.ok (dt', b)) :
    fixOp dt' = Except.ok (dt', false) := by
  cases details with
  | obj d =>
    rcases hr : lookupKey d "responses" with _ | responses
    · simp [fixOp, hr] at h
      obtain ⟨h1, h2⟩ := h
      subst h1
      simp [fixOp, hr]
    · cases responses with
      | obj rs =>
        cases h1 : hasKey rs "201" with
        | false =>
          simp [fixOp, hr, pyIn, h1] at h
          obtain ⟨h3, h4⟩ := h
          subst h3
          simp [fixOp, hr, pyIn, h1]
        | true =>
          cases h2 : hasKey rs "200" with
          | false =>
            simp [fixOp, hr, pyIn, h1, h2] at h
            obtain ⟨h3, h4⟩ := h
            subst h3
            simp [fixOp, hr, pyIn, h1, h2]
          | true =>
            obtain ⟨r200, hl⟩ := lookup_of_hasKey h2
            cases r200 with
            | obj r =>
              cases hs : shouldRemove ((lookupKey r "content").getD (Json.obj [])) with
              | false =>
                simp [fixOp, hr, pyIn, h1, h2, hl, hs] at h
                obtain ⟨h3, h4⟩ := h
                subst h3
                simp [fixOp, hr, pyIn, h1, h2, hl, hs]
              | true =>
                simp [fixOp, hr, pyIn, h1, h2, hl, hs] at h
                obtain ⟨h3, h4⟩ := h
                subst h3
                have hnd2 : keysNodup rs = true := by
                  simpa [respNodup, hr] using hnd
                have hrl : lookupKey (setKey d "responses"
                    (Json.obj (delKey rs "200"))) "responses" =
                    some (Json.obj (delKey rs "200")) :=
                  lookup_setKey_eq d "responses" _ (by simp [hasKey, hr])
                have h200 : hasKey (delKey rs "200") "200" = false :=
                  hasKey_delKey_self rs "200" hnd2
                have h201 : hasKey (delKey rs "200") "201" = true := by
                  unfold hasKey
                  rw [lookup_delKey_ne rs "200" "201" (by decide)]
                  exact h1
                simp [fixOp, hrl, pyIn, h201, h200]
            | null =>
              simp [fixOp, hr, pyIn, h1, h2, hl] at h
              obtain ⟨h3, h4⟩ := h
              subst h3
              simp [fixOp, hr, pyIn, h1, h2, hl]
            | bool b2 =>
              simp [fixOp, hr, pyIn, h1, h2, hl] at h
              obtain ⟨h3, h4⟩ := h
              subst h3
              simp [fixOp, hr, pyIn, h1, h2, hl]
            | num n =>
              simp [fixOp, hr, pyIn, h1, h2, hl] at h
              obtain ⟨h3, h4⟩ := h
              subst h3
              simp [fixOp, hr, pyIn, h1, h2, hl]
            | str s =>
              simp [fixOp, hr, pyIn, h1, h2, hl] at h
              obtain ⟨h3, h4⟩ := h
              subst h3
              simp [fixOp, hr, pyIn, h1, h2, hl]
            | arr xs =>
              simp [fixOp, hr, pyIn, h1, h2, hl] at h
              obtain ⟨h3, h4⟩ := h
              subst h3
              simp [fixOp, hr, pyIn, h1, h2, hl]
      | null => simp [fixOp, hr, pyIn] at h
      | bool b2 => simp [fixOp, hr, pyIn] at h
      | num n => simp [fixOp, hr, pyIn] at h
      | str s =>
        cases g1 : strIn "201" s with
        | false =>
          simp [fixOp, hr, pyIn, g1] at h
          obtain ⟨h3, h4⟩ := h
          subst h3
          simp [fixOp, hr, pyIn, g1]
        | true =>
          cases g2 : strIn "200" s with
          | false =>
            simp [fixOp, hr, pyIn, g1, g2] at h
            obtain ⟨h3, h4⟩ := h
            subst h3
            simp [fixOp, hr, pyIn, g1, g2]
          | true => simp [fixOp, hr, pyIn, g1, g2] at h
      | arr xs =>
        cases g1 : xs.any fun x => match x with | .str s => s = "201" | _ => false with
        | false =>
          simp [fixOp, hr, pyIn, g1] at h
          obtain ⟨h3, h4⟩ := h
          subst h3
          simp [fixOp, hr, pyIn, g1]
        | true =>
          cases g2 : xs.any fun x => match x with | .str s => s = "200" | _ => false with
          | false =>
            simp [fixOp, hr, pyIn, g1, g2] at h
            obtain ⟨h3, h4⟩ := h
            subst h3
            simp [fixOp, hr, pyIn, g1, g2]
          | true => simp [fixOp, hr, pyIn, g1, g2] at h
  | null =>
    simp [fixOp] at h
    obtain ⟨h1, h2⟩ := h
    subst h1
    simp [fixOp]
  | bool b2 =>
    simp [fixOp] at h
    obtain ⟨h1, h2⟩ := h
    subst h1
    simp [fixOp]
  | num n =>
    simp [fixOp] at h
    obtain ⟨h1, h2⟩ := h
    subst h1
    simp [fixOp]
  | str s =>
    simp [fixOp] at h
    obtain ⟨h1, h2⟩ := h
    subst h1
    simp [fixOp]
  | arr xs =>
    simp [fixOp] at h
    obtain ⟨h1, h2⟩ := h
    subst h1
    simp [fixOp]

theorem fixMethods_idem (path : String) (ms ms2 : List (String × Json))
    (n : Nat) (logs : List String)
    (hnd : (ms.all fun md => respNodup md.2) = true)
    (h : fixMethods path ms = Except.ok (ms2, n, logs)) :
    fixMethods path ms2 = Except.ok (ms2, 0, []) := by
  induction ms generalizing ms2 n logs with
  | nil =>
    simp [fixMethods] at h
    obtain ⟨h1, h2, h3⟩ := h
    subst h1
    simp [fixMethods]
  | cons hd tl ih =>
    obtain ⟨m, dt⟩ := hd
    simp only [List.all_cons, Bool.and_eq_true] at hnd
    rcases e : fixOp dt with e2 | ⟨dt2, b⟩
    · simp [fixMethods, e] at h
    · rcases e2 : fixMethods path tl with e3 | ⟨tl2, n2, logs2⟩
      · simp [fixMethods, e, e2] at h
      · simp [fixMethods, e, e2] at h
        obtain ⟨h1, h2, h3⟩ := h
        subst h1
        have hop : fixOp dt2 = Except.ok (dt2, false) := fixOp_idem dt dt2 b hnd.1 e
        have htl : fixMethods path tl2 = Except.ok (tl2, 0, []) :=
          ih tl2 n2 logs2 hnd.2 e2
        simp [fixMethods, hop, htl]

theorem fixPaths_idem (ps ps2 : List (String × Json))
    (n : Nat) (logs : List String)
    (hnd : (ps.all fun pm =>
        match pm.2 with
        | .obj ms => ms.all fun md => respNodup md.2
        | _ => true) = true)
    (h : fixPaths ps = Except.ok (ps2, n, logs)) :
    fixPaths ps2 = Except.ok (ps2, 0, []) := by
  induction ps generalizing ps2 n logs with
  | nil =>
    simp [fixPaths] at h
    obtain ⟨h1, h2, h3⟩ := h
    subst h1
    simp [fixPaths]
  | cons hd tl ih =>
    obtain ⟨p, m⟩ := hd
    simp only [List.all_cons, Bool.and_eq_true] at hnd
    cases m with
    | obj ms =>
      rcases e : fixMethods p ms with e2 | ⟨ms2, n2, logs2⟩
      · simp [fixPaths, e] at h
      · rcases e2 : fixPaths tl with e3 | ⟨tl2, n3, logs3⟩
        · simp [fixPaths, e, e2] at h
        · simp [fixPaths, e, e2] at h
          obtain ⟨h1, h2, h3⟩ := h
          subst h1
          have hms : fixMethods p ms2 = Except.ok (ms2, 0, []) :=
            fixMethods_idem p ms ms2 n2 logs2 hnd.1 e
          have htl : fixPaths tl2 = Except.ok (tl2, 0, []) :=
            ih tl2 n3 logs3 hnd.2 e2
          simp [fixPaths, hms, htl]
    | null => simp [fixPaths] at h
    | bool b => simp [fixPaths] at h
    | num n2 => simp [fixPaths] at h
    | str s => simp [fixPaths] at h
    | arr xs => simp [fixPaths] at h

/-- C3: the pass is idempotent.  For a document whose responses mappings
have unique keys (as every document parsed from JSON text does), a second
application of the pass to the output of a successful first application
removes nothing: it returns the same document with a zero count and no
removal lines. -/
theorem c3_idempotent (spec spec' : Json) (n : Nat) (logs : List String)
    (hnd : specRespNodup spec = true)
    (h : fixSpec spec = Except.ok (spec', n, logs)) :
    fixSpec spec' = Except.ok (spec', 0, []) := by
  cases spec with
  | obj s =>
    rcases hp : lookupKey s "paths" with _ | v
    · have hk : hasKey s "paths" = false := by simp [hasKey, hp]
      simp [fixSpec, hp, fixPaths, hk] at h
      obtain ⟨h1, h2, h3⟩ := h
      subst h1
      simp [fixSpec, hp, fixPaths, hk]
    · cases v with
      | obj ps =>
        rcases hfp : fixPaths ps with e | ⟨ps2, n2, logs2⟩
        · simp [fixSpec, hp, hfp] at h
        · have hk : hasKey s "paths" = true := by simp [hasKey, hp]
          simp [fixSpec, hp, hfp, hk] at h
          obtain ⟨h1, h2, h3⟩ := h
          subst h1
          have hndps : (ps.all fun pm =>
              match pm.2 with
              | .obj ms => ms.all fun md => respNodup md.2
              | _ => true) = true := by
            simpa [specRespNodup, hp] using hnd
          have hfp2 : fixPaths ps2 = Except.ok (ps2, 0, []) :=
            fixPaths_idem ps ps2 n2 logs2 hndps hfp
          have hp2 : lookupKey (setKey s "paths" (Json.obj ps2)) "paths" =
              some (Json.obj ps2) :=
            lookup_setKey_eq s "paths" _ (by simp [hasKey, hp])
          have hk2 : hasKey (setKey s "paths" (Json.obj ps2)) "paths" = true := by
            simp [hasKey, hp2]
          have hss : setKey (setKey s "paths" (Json.obj ps2)) "paths"
              (Json.obj ps2) = setKey s "paths" (Json.obj ps2) :=
            setKey_self _ "paths" _ hp2
          simp [fixSpec, hp2, hfp2, hk2, hss]
      | null => simp [fixSpec, hp] at h
      | bool b => simp [fixSpec, hp] at h
      | num n2 => simp [fixSpec, hp] at h
      | str s2 => simp [fixSpec, hp] at h
      | arr xs => simp [fixSpec, hp] at h
  | null => simp [fixSpec] at h
  | bool b => simp [fixSpec] at h
  | num n2 => simp [fixSpec] at h
  | str s => simp [fixSpec] at h
  | arr xs => simp [fixSpec] at h

theorem c3_idempotent_witness :
    fixSpec exDocFixed = Except.ok (exDocFixed, 0, []) :=
  c3_idempotent exDoc exDocFixed 1 ["Removed empty 200 from POST /x"] rfl rfl

/-- True exactly when the run produced (wrote) an output document. -/
def writesOutput : RunResult → Bool
  | .success _ _ => true
  | _ => false

/-- C6: a missing or unparsable input file makes the run abort with a
parse error before the pass and the serialization step; no output
document is produced (only a success result carries the document written
to swagger.json). -/
theorem c6_parse_failure_writes_nothing :
    runScript none = RunResult.parseError ∧
      writesOutput (runScript none) = false :=
  ⟨rfl, rfl⟩

theorem fixMethods_logs (path : String) (ms ms2 : List (String × Json))
    (n : Nat) (logs : List String)
    (h : fixMethods path ms = Except.ok (ms2, n, logs)) :
    n = logs.length ∧ ∀ l ∈ logs, ∃ mth pth, l = removeMsg mth pth := by
  induction ms generalizing ms2 n logs with
  | nil =>
    simp [fixMethods] at h
    obtain ⟨h1, h2, h3⟩ := h
    subst h2
    subst h3
    exact ⟨rfl, by simp⟩
  | cons hd tl ih =>
    obtain ⟨m, dt⟩ := hd
    rcases e : fixOp dt with e2 | ⟨dt2, b⟩
    · simp [fixMethods, e] at h
    · rcases e2 : fixMethods path tl with e3 | ⟨tl2, n2, logs2⟩
      · simp [fixMethods, e, e2] at h
      · simp [fixMethods, e, e2] at h
        obtain ⟨h1, h2, h3⟩ := h
        subst h2
        subst h3
        obtain ⟨ihn, ihf⟩ := ih tl2 n2 logs2 e2
        cases b with
        | true =>
          constructor
          · simp [ihn]
            omega
          · intro l hl
            rcases List.mem_cons.mp (by simpa using hl) with hhd | htl
            · exact ⟨m, path, hhd⟩
            · exact ihf l htl
        | false =>
          constructor
          · simpa using ihn
          · intro l hl
            exact ihf l (by simpa using hl)

theorem fixPaths_logs (ps ps2 : List (String × Json))
    (n : Nat) (logs : List String)
    (h : fixPaths ps = Except.ok (ps2, n, logs)) :
    n = logs.length ∧ ∀ l ∈ logs, ∃ mth pth, l = removeMsg mth pth := by
  induction ps generalizing ps2 n logs with
  | nil =>
    simp [fixPaths] at h
    obtain ⟨h1, h2, h3⟩ := h
    subst h2
    subst h3
    exact ⟨rfl, by simp⟩
  | cons hd tl ih =>
    obtain ⟨p, m⟩ := hd
    cases m with
    | obj ms =>
      rcases e : fixMethods p ms with e2 | ⟨ms2, n2, logs2⟩
      · simp [fixPaths, e] at h
      · rcases e2 : fixPaths tl with e3 | ⟨tl2, n3, logs3⟩
        · simp [fixPaths, e, e2] at h
        · simp [fixPaths, e, e2] at h
          obtain ⟨h1, h2, h3⟩ := h
          subst h2
          subst h3
          obtain ⟨hn2, hf2⟩ := fixMethods_logs p ms ms2 n2 logs2 e
          obtain ⟨hn3, hf3⟩ := ih tl2 n3 logs3 e2
          constructor
          · simp [hn2, hn3]
          · intro l hl
            rcases List.mem_append.mp hl with h4 | h4
            · exact hf2 l h4
            · exact hf3 l h4
    | null => simp [fixPaths] at h
    | bool b => simp [fixPaths] at h
    | num n2 => simp [fixPaths] at h
    | str s => simp [fixPaths] at h
    | arr xs => simp [fixPaths] at h

theorem fixSpec_logs (spec spec' : Json) (n : Nat) (logs : List String)
    (h : fixSpec spec = Except.ok (spec', n, logs)) :
    n = logs.length ∧ ∀ l ∈ logs, ∃ mth pth, l = removeMsg mth pth := by
  cases spec with
  | obj s =>
    rcases hp : lookupKey s "paths" with _ | v
    · have hk : hasKey s "paths" = false := by simp [hasKey, hp]
      simp [fixSpec, hp, fixPaths, hk] at h
      obtain ⟨h1, h2, h3⟩ := h
      subst h2
      subst h3
      exact ⟨rfl, by simp⟩
    · cases v with
      | obj ps =>
        rcases hfp : fixPaths ps with e | ⟨ps2, n2, logs2⟩
        · simp [fixSpec, hp, hfp] at h
        · have hk : hasKey s "paths" = true := by simp [hasKey, hp]
          simp [fixSpec, hp, hfp, hk] at h
          obtain ⟨h1, h2, h3⟩ := h
          subst h2
          subst h3
          exact fixPaths_logs ps ps2 n2 logs2 hfp
      | null => simp [fixSpec, hp] at h
      | bool b => simp [fixSpec, hp] at h
      | num n2 => simp [fixSpec, hp] at h
      | str s2 => simp [fixSpec, hp] at h
      | arr xs => simp [fixSpec, hp] at h
  | null => simp [fixSpec] at h
  | bool b => simp [fixSpec] at h
  | num n2 => simp [fixSpec] at h
  | str s => simp [fixSpec] at h
  | arr xs => simp [fixSpec] at h

/-- C7: on a completed run, standard output is one line per removed
response, of the form "Removed empty 200 from METHOD path" with the
method upper-cased and the path verbatim, followed by exactly one final
summary line "Fixed count endpoints. Saved to swagger.json" whose count
equals the number of removals (the number of removal lines). -/
theorem c7_stdout_format (spec spec' : Json) (n : Nat) (logs : List String)
    (h : fixSpec spec = Except.ok (spec', n, logs)) :
    runScript (some spec) = RunResult.success spec'
      (logs ++ ["Fixed " ++ toString n ++ " endpoints. Saved to swagger.json"]) ∧
    n = logs.length ∧
    ∀ l ∈ logs, ∃ method path,
      l = "Removed empty 200 from " ++ upStr method ++ " " ++ path := by
  refine ⟨by simp [runScript, h, fixedMsg], (fixSpec_logs spec spec' n logs h).1, ?_⟩
  intro l hl
  obtain ⟨mth, pth, hmp⟩ := (fixSpec_logs spec spec' n logs h).2 l hl
  exact ⟨mth, pth, by simpa [removeMsg] using hmp⟩

theorem c7_stdout_format_witness :
    runScript (some exDoc) = RunResult.success exDocFixed
      (["Removed empty 200 from POST /x"] ++
        ["Fixed " ++ toString 1 ++ " endpoints. Saved to swagger.json"]) :=
  (c7_stdout_format exDoc exDocFixed 1 ["Removed empty 200 from POST /x"] rfl).1

/-- A document with three operations, of which one removal happens. -/
def ex3 : Json :=
  Json.obj [("paths", Json.obj [("/a", Json.obj [
    ("get", Json.obj [("responses", Json.obj [("200", Json.obj [])])]),
    ("put", Json.obj [("responses", Json.obj [("200", Json.obj [])])]),
    ("post", Json.obj [("responses", Json.obj
      [("200", Json.obj [("content", Json.obj [])]),
       ("201", Json.obj [])])])])])]

/-- The three-operation document after the pass. -/
def ex3Fixed : Json :=
  Json.obj [("paths", Json.obj [("/a", Json.obj [
    ("get", Json.obj [("responses", Json.obj [("200", Json.obj [])])]),
    ("put", Json.obj [("responses", Json.obj [("200", Json.obj [])])]),
    ("post", Json.obj [("responses", Json.obj [("201", Json.obj [])])])])])]

/-- C8, the claim as stated, is false: on a document with three
operations and one removal the whole standard output is the removal line
and the summary line, and the digit 3 (the total operation count) occurs
in neither, so the total number of operations processed is not reported
anywhere. -/
theorem c8_counterexample :
    runScript (some ex3) = RunResult.success ex3Fixed
      ["Removed empty 200 from POST /a",
       "Fixed 1 endpoints. Saved to swagger.json"] ∧
    (["Removed empty 200 from POST /a",
      "Fixed 1 endpoints. Saved to swagger.json"].all
        fun l => !(strIn "3" l)) = true :=
  ⟨rfl, rfl⟩

/-- C8 (amended): after the pass the program reports the removal count,
in the final summary line; it does not report the total number of
operations processed (see c8_counterexample). -/
theorem c8_reports_removal_count (spec spec' : Json) (n : Nat)
    (logs : List String) (h : fixSpec spec = Except.ok (spec', n, logs)) :
    runScript (some spec) = RunResult.success spec'
      (logs ++ ["Fixed " ++ toString n ++ " endpoints. Saved to swagger.json"]) := by
  simp [runScript, h, fixedMsg]

theorem c8_reports_removal_count_witness :
    runScript (some ex3) = RunResult.success ex3Fixed
      (["Removed empty 200 from POST /a"] ++
        ["Fixed " ++ toString 1 ++ " endpoints. Saved to swagger.json"]) :=
  c8_reports_removal_count ex3 ex3Fixed 1 ["Removed empty 200 from POST /a"] rfl

theorem fixPaths_err (ps : List (String × Json)) (p : String) (m : Json)
    (hm : (p, m) ∈ ps) (hno : ∀ kvs, m ≠ Json.obj kvs) :
    ∃ e, fixPaths ps = Except.error e := by
  induction ps with
  | nil => cases hm
  | cons hd tl ih =>
    obtain ⟨p0, m0⟩ := hd
    rcases List.mem_cons.mp hm with heq | htl
    · have hm0 : m0 = m := (Prod.mk.injEq _ _ _ _ ▸ heq).2.symm
      subst hm0
      cases m0 with
      | obj kvs => exact absurd rfl (hno kvs)
      | null => exact ⟨.attrError, rfl⟩
      | bool b => exact ⟨.attrError, rfl⟩
      | num n => exact ⟨.attrError, rfl⟩
      | str s => exact ⟨.attrError, rfl⟩
      | arr xs => exact ⟨.attrError, rfl⟩
    · cases m0 with
      | obj ms =>
        rcases e : fixMethods p0 ms with e2 | ⟨ms2, n2, logs2⟩
        · exact ⟨e2, by simp [fixPaths, e]⟩
        · obtain ⟨e3, htl2⟩ := ih htl
          exact ⟨e3, by simp [fixPaths, e, htl2]⟩
      | null => exact ⟨.attrError, rfl⟩
      | bool b => exact ⟨.attrError, rfl⟩
      | num n => exact ⟨.attrError, rfl⟩
      | str s => exact ⟨.attrError, rfl⟩
      | arr xs => exact ⟨.attrError, rfl⟩

/-- C10: the type guards do not protect the paths level.  A top-level
"paths" value that is not a mapping raises an AttributeError (no .items),
and a path whose value is not a mapping likewise makes the traversal
raise; in both cases the run aborts and no output document is produced. -/
theorem c10_unguarded_paths_level :
    (∀ s v, lookupKey s "paths" = some v → (∀ kvs, v ≠ Json.obj kvs) →
      fixSpec (Json.obj s) = Except.error PyErr.attrError ∧
        runScript (some (Json.obj s)) = RunResult.abortedWith PyErr.attrError) ∧
    (∀ s ps p m, lookupKey s "paths" = some (Json.obj ps) → (p, m) ∈ ps →
      (∀ kvs, m ≠ Json.obj kvs) →
      ∃ e, fixSpec (Json.obj s) = Except.error e ∧
        runScript (some (Json.obj s)) = RunResult.abortedWith e ∧
        writesOutput (runScript (some (Json.obj s))) = false) := by
  constructor
  · intro s v hp hno
    cases v with
    | obj kvs => exact absurd rfl (hno kvs)
    | null => exact ⟨by simp [fixSpec, hp], by simp [runScript, fixSpec, hp]⟩
    | bool b => exact ⟨by simp [fixSpec, hp], by simp [runScript, fixSpec, hp]⟩
    | num n => exact ⟨by simp [fixSpec, hp], by simp [runScript, fixSpec, hp]⟩
    | str s2 => exact ⟨by simp [fixSpec, hp], by simp [runScript, fixSpec, hp]⟩
    | arr xs => exact ⟨by simp [fixSpec, hp], by simp [runScript, fixSpec, hp]⟩
  · intro s ps p m hp hm hno
    obtain ⟨e, hfp⟩ := fixPaths_err ps p m hm hno
    exact ⟨e, by simp [fixSpec, hp, hfp],
      by simp [runScript, fixSpec, hp, hfp],
      by simp [runScript, fixSpec, hp, hfp, writesOutput]⟩

theorem c10_unguarded_paths_level_witness :
    fixSpec (Json.obj [("paths", Json.str "oops")]) = Except.error PyErr.attrError ∧
      runScript (some (Json.obj [("paths", Json.str "oops")])) =
        RunResult.abortedWith PyErr.attrError :=
  c10_unguarded_paths_level.1 [("paths", Json.str "oops")] (Json.str "oops") rfl
    (fun _ h => Json.noConfusion h)
